import Mathlib

/-!
Verification of the streaming transfer engine of `fplay.c` (a standalone
raw-PCM play/record utility).  The C source is shallowly embedded: each
relevant C function is translated into an executable Lean definition over
`Nat`/`Int` byte and frame values, with device I/O results and
asynchronous events supplied as explicit traces, and the claims of the
natural-language specification are settled as theorems about these
definitions.  Definitions come first, then the theorems.
-/

namespace Fplay

/-! ## Definitions -/

/-! ### xwrite (fplay.c lines 404-421)

`xwrite(fd, buf, count)` loops calling `write(2)` until `offset`
reaches `count`; a `write` result `<= 0` is returned immediately,
otherwise the result is added to `offset`.  The successive results of
the underlying `write` calls are modelled as a trace `List Int`; the
model returns `none` when the trace is exhausted before the loop ends,
and otherwise `some (returnValue, offset)` where `offset` is the total
number of bytes accepted by the underlying writes. -/

def xwriteGo : List Int → Nat → Nat → Option (Int × Nat)
  | trace, offset, count =>
    if offset < count then
      match trace with
      | [] => none
      | w :: rest =>
        if w ≤ 0 then some (w, offset)
        else xwriteGo rest (offset + w.toNat) count
    else
      some ((offset : Int), offset)

def xwrite (trace : List Int) (count : Nat) : Option (Int × Nat) :=
  xwriteGo trace 0 count

/-! ### Peak meter (compute_max_peak, fplay.c lines 1446-1591)

`compute_max_peak(data, samples)` decodes the raw bytes of a
just-transferred chunk according to `bits_per_sample`, normalises each
sample with the format's silence mask (XOR), takes absolute values,
tracks a per-channel running maximum, clamps it against the full-scale
value `1 << (significant_bits_per_sample - 1)` and derives a
percentage.  Each C `switch` case is one decoder below, producing the
absolute amplitude `val` of each sample. -/

/-- Absolute value of an 8-bit two's-complement pattern (C: `signed
char` value after XOR with the silence mask, then `abs`). -/
def absSigned8 (x : Nat) : Nat := if x < 128 then x else 256 - x

/-- Absolute value of a 16-bit two's-complement pattern. -/
def absSigned16 (x : Nat) : Nat := if x < 2 ^ 15 then x else 2 ^ 16 - x

/-- Absolute value of a 24-bit pattern after the source's sign
extension of bit 23 into the upper byte (`val |= 0xff << 24`). -/
def absSigned24 (x : Nat) : Nat := if x < 2 ^ 23 then x else 2 ^ 24 - x

/-- The 32-bit case of `compute_max_peak`: the literal full-scale
boundary pattern `0x80000000` is mapped to `0x7fffffff` before `abs`
(avoiding `abs(INT_MIN)`); every other pattern is sign-interpreted and
`abs`-ed. -/
def absSigned32 (x : Nat) : Nat :=
  if x = 2 ^ 31 then 2 ^ 31 - 1 else if x < 2 ^ 31 then x else 2 ^ 32 - x

/-- Assemble a 16-bit word from two bytes honouring the stream's byte
order (`le16toh`/`be16toh`). -/
def word16 (le : Bool) (b0 b1 : Nat) : Nat :=
  if le then b0 + 256 * b1 else b1 + 256 * b0

/-- Assemble a 24-bit word from three packed bytes
(`valp[0] | valp[1]<<8 | valp[2]<<16` or the mirrored big-endian
form). -/
def word24 (le : Bool) (b0 b1 b2 : Nat) : Nat :=
  if le then b0 + 256 * b1 + 65536 * b2 else b2 + 256 * b1 + 65536 * b0

/-- Assemble a 32-bit word from four bytes (`le32toh`/`be32toh`). -/
def word32 (le : Bool) (b0 b1 b2 b3 : Nat) : Nat :=
  if le then b0 + 256 * b1 + 65536 * b2 + 16777216 * b3
  else b3 + 256 * b2 + 65536 * b1 + 16777216 * b0

def decode8 (mask : Nat) : List Nat → List Nat
  | [] => []
  | b :: rest => absSigned8 (Nat.xor b mask) :: decode8 mask rest

def decode16 (le : Bool) (mask : Nat) : List Nat → List Nat
  | b0 :: b1 :: rest =>
    absSigned16 (Nat.xor (word16 le b0 b1) mask) :: decode16 le mask rest
  | _ => []

def decode24 (le : Bool) (mask : Nat) : List Nat → List Nat
  | b0 :: b1 :: b2 :: rest =>
    absSigned24 (Nat.xor (word24 le b0 b1 b2) mask) :: decode24 le mask rest
  | _ => []

def decode32 (le : Bool) (mask : Nat) : List Nat → List Nat
  | b0 :: b1 :: b2 :: b3 :: rest =>
    absSigned32 (Nat.xor (word32 le b0 b1 b2 b3) mask) :: decode32 le mask rest
  | _ => []

/-- Dispatch on `bits_per_sample` exactly as the C `switch` does;
`none` is the `default:` case (unsupported width). -/
def decodeAbs (width : Nat) (le : Bool) (mask : Nat) (bytes : List Nat) :
    Option (List Nat) :=
  if width = 8 then some (decode8 mask bytes)
  else if width = 16 then some (decode16 le mask bytes)
  else if width = 24 then some (decode24 le mask bytes)
  else if width = 32 then some (decode32 le mask bytes)
  else none

/-- The full-scale value: C computes `max = 1 << (significant_bits-1)`
in a 32-bit `signed int` and replaces a non-positive result (the
overflowed `1 << 31` pattern, or zero) by `0x7fffffff`. -/
def cMax (sb : Nat) : Nat :=
  let raw := 2 ^ (sb - 1) % 2 ^ 32
  if raw = 0 ∨ 2 ^ 31 ≤ raw then 2 ^ 31 - 1 else raw

/-- The clamp `if (max_peak[c] > max) max_peak[c] = max`. -/
def clampPeak (m p : Nat) : Nat := if p > m then m else p

/-- The percentage computation: coarser precision
(`max_peak / (max / 100)`) for widths above 16 bits, otherwise
`max_peak * 100 / max`. -/
def percOf (width m p : Nat) : Nat :=
  if width > 16 then p / (m / 100) else p * 100 / m

/-- Per-channel running maxima: channel index `c` alternates between
the two channels exactly when stereo metering is selected
(`if (vumeter == VUMETER_STEREO) c = !c`), otherwise every sample
feeds channel 0. -/
def peaksGo (stereo : Bool) : List Nat → Bool → Nat × Nat → Nat × Nat
  | [], _, acc => acc
  | v :: rest, c, (p0, p1) =>
    peaksGo stereo rest (if stereo then !c else c)
      (if c then (p0, max p1 v) else (max p0 v, p1))

/-- Result of one `compute_max_peak` call: the value of the static
`run` flag afterwards, the number of "Unsupported bit size" messages
printed by this call, and the meter payload (clamped per-channel peaks
and their percentages) — `none` when metering was skipped. -/
structure PeakRes where
  run : Bool
  reports : Nat
  meter : Option (List Nat × List Nat)
  deriving Repr, DecidableEq

def compute_max_peak (width sb : Nat) (le : Bool) (mask : Nat)
    (stereo : Bool) (bytes : List Nat) (run : Bool) : PeakRes :=
  match decodeAbs width le mask bytes with
  | none => if run then ⟨run, 0, none⟩ else ⟨true, 1, none⟩
  | some vals =>
    let pk := peaksGo stereo vals false (0, 0)
    let m := cMax sb
    let peaks := if stereo then [clampPeak m pk.1, clampPeak m pk.2]
                 else [clampPeak m pk.1]
    ⟨run, 0, some (peaks, peaks.map (percOf width m))⟩

/-- Width/significant-bits pairs as they arise from the supported ALSA
linear formats: the stored width is one of 8/16/24/32 bits and the
significant width equals it, except that 24 significant bits may live
in a 32-bit (or 24-bit packed) container. -/
def supportedCombo (width sb : Nat) : Prop :=
  (width = 8 ∧ sb = 8) ∨ (width = 16 ∧ sb = 16) ∨
  ((width = 24 ∨ width = 32) ∧ (sb = 24 ∨ sb = 32))

/-- The static `run` flag threaded over a stream of chunks: each
element of `bufs` is the byte buffer of one `compute_max_peak` call.
Returns the final flag and the total number of unsupported-width
reports over the whole stream. -/
def peakRunFold (width sb : Nat) (le : Bool) (mask : Nat) (stereo : Bool) :
    List (List Nat) → Bool → Bool × Nat
  | [], run => (run, 0)
  | b :: rest, run =>
    let r1 := compute_max_peak width sb le mask stereo b run
    let r2 := peakRunFold width sb le mask stereo rest r1.run
    (r2.1, r1.reports + r2.2)

/-! ### Transfer loop (pcm_write lines 1755-1792, pcm_read lines 1847-1887)

Device I/O and the asynchronous abort flag are modelled as an explicit
event trace.  `accept r` is a `writei_func`/`readi_func` call
returning `r ≥ 0` frames (`r = 0` covers `-EAGAIN` and the
wait-and-retry path, which transfers nothing; recovered faults
likewise retransfer from the same position and so are data-flow
equivalent to `accept 0`); `abortSig` is the loop observing
`in_aborting` set.  A model result of `none` means the trace ended
before the loop did. -/

inductive DevEv where
  | accept (r : Nat)
  | abortSig
  deriving Repr, DecidableEq

/-- The negotiated stream configuration consumed by the engine. -/
structure Cfg where
  chunk_size : Nat
  channels : Nat
  bps : Nat
  silPat : List Nat
  width : Nat
  sb : Nat
  le : Bool
  mask : Nat
  vumeter : Bool
  stereo : Bool
  deriving Repr, DecidableEq

/-- Bytes per frame (`bits_per_frame / 8 = channels * bits_per_sample / 8`). -/
def Cfg.bpf (cfg : Cfg) : Nat := cfg.channels * cfg.bps

/-- `snd_pcm_format_set_silence(fmt, area, nsamples)`: fill `nsamples`
samples with the format's per-sample silence pattern. -/
def silenceFill (silPat : List Nat) (nsamples : Nat) : List Nat :=
  (List.replicate nsamples silPat).flatten

/-- Outcome of `pcm_write`: the returned frame total `result`, the
bytes handed to the device in order, and the peak-meter state
(`run` flag, unsupported-width report count). -/
structure WriteRes where
  result : Nat
  delivered : List Nat
  run : Bool
  reports : Nat
  deriving Repr, DecidableEq

/-- The `while (count > 0 && !in_aborting)` loop of `pcm_write`: a
positive device result `r` advances the data cursor by
`r * bits_per_frame / 8` bytes, accumulates `result`, and (when the VU
meter is on) feeds the just-written span to `compute_max_peak`. -/
def pcm_write_go (cfg : Cfg) :
    List DevEv → List Nat → Nat → Nat → List Nat → Bool → Nat → Option WriteRes
  | [], _, count, result, delivered, run, reports =>
    if count = 0 then some ⟨result, delivered, run, reports⟩ else none
  | DevEv.abortSig :: _, _, _, result, delivered, run, reports =>
    some ⟨result, delivered, run, reports⟩
  | DevEv.accept r :: rest, data, count, result, delivered, run, reports =>
    if count = 0 then some ⟨result, delivered, run, reports⟩
    else if r = 0 then pcm_write_go cfg rest data count result delivered run reports
    else
      pcm_write_go cfg rest (data.drop (r * cfg.bpf)) (count - r) (result + r)
        (delivered ++ data.take (r * cfg.bpf))
        (if cfg.vumeter then
          (compute_max_peak cfg.width cfg.sb cfg.le cfg.mask cfg.stereo
            (data.take (r * cfg.bpf)) run).run
         else run)
        (reports +
         (if cfg.vumeter then
           (compute_max_peak cfg.width cfg.sb cfg.le cfg.mask cfg.stereo
             (data.take (r * cfg.bpf)) run).reports
          else 0))

/-- `pcm_write(data, count)` (fplay.c 1755-1792): a request shorter
than the chunk size is padded to a whole chunk with
`snd_pcm_format_set_silence` over `(chunk_size - count) * channels`
samples starting at byte `count * bits_per_frame / 8`, then the write
loop runs for the (possibly enlarged) `count`.  `run` is the incoming
value of `compute_max_peak`'s static `run` flag. -/
def pcm_write (cfg : Cfg) (evs : List DevEv) (data : List Nat)
    (count : Nat) (run : Bool) : Option WriteRes :=
  pcm_write_go cfg evs
    (if count < cfg.chunk_size then
      data.take (count * cfg.bpf) ++
        silenceFill cfg.silPat ((cfg.chunk_size - count) * cfg.channels)
     else data)
    (if count < cfg.chunk_size then cfg.chunk_size else count) 0 [] run 0

/-- The `while (count > 0)` loop of `pcm_read`, with `in_aborting`
checked at the top of every iteration (`goto abort`).  Returns the
total frames actually obtained from the device. -/
def pcm_read_go : List DevEv → Nat → Nat → Option Nat
  | [], count, result => if count = 0 then some result else none
  | DevEv.abortSig :: _, _, result => some result
  | DevEv.accept r :: rest, count, result =>
    if count = 0 then some result
    else if r = 0 then pcm_read_go rest count result
    else pcm_read_go rest (count - r) (result + r)

/-- `pcm_read(data, rcount)` (fplay.c 1847-1887): a request different
from the chunk size is widened to a whole chunk
(`if (count != chunk_size) count = chunk_size`), the loop runs, and
the function returns `rcount` — both on completion and at the `abort`
label.  The model's pair is `(return value, frames actually read)`. -/
def pcm_read (chunk_size : Nat) (evs : List DevEv) (rcount : Nat) :
    Option (Nat × Nat) :=
  (pcm_read_go evs (if rcount ≠ chunk_size then chunk_size else rcount) 0).map
    (fun result => (rcount, result))

/-- The transfer-visible part of a `pcm_write` outcome: the returned
frame total and the bytes handed to the device (everything except the
peak-meter bookkeeping). -/
def WriteRes.view (w : WriteRes) : Nat × List Nat := (w.result, w.delivered)

/-- Trace validity for a fault-free, abort-free full delivery: every
device result is at most the outstanding frame count and the results
sum to it. -/
def acceptsAll : List DevEv → Nat → Bool
  | _, 0 => true
  | [], _ + 1 => false
  | DevEv.abortSig :: _, _ + 1 => false
  | DevEv.accept r :: rest, n + 1 => decide (r ≤ n + 1) && acceptsAll rest (n + 1 - r)

/-- Trace validity without the full-delivery requirement: the device
never reports more frames than were outstanding (abort may cut the
trace short). -/
def stepsValid : List DevEv → Nat → Bool
  | [], _ => true
  | DevEv.abortSig :: _, _ => true
  | DevEv.accept r :: rest, n => decide (r ≤ n) && stepsValid rest (n - r)

/-! ### Capture loop and file rotation (capture, fplay.c lines 2254-2358)

`capture` computes `max_file_size = max_file_time *
snd_pcm_format_size(format, rate * channels)` at line 2268 (bytes per
file for size-based rotation), then runs a do/while loop: each pass
opens one output file and the inner `while (rest > 0 &&
recycle_capture_file == 0 && !in_aborting)` loop (lines 2320-2337)
moves `c = min(rest, chunk_bytes)` bytes per iteration, counting them
in `fdcount`.  The models below cover a run with no rotation signal,
no abort and fault-free I/O. -/

/-- Line 2268: bytes per file derived from `max_file_time`
(`snd_pcm_format_size(format, rate * channels)` is the byte size of
one second of audio, i.e. `rate * bytes_per_frame`). -/
def capture_max_file_size (max_file_time rate bpf : Nat) : Nat :=
  max_file_time * (rate * bpf)

/-- The inner per-file loop of `capture` (lines 2320-2337): each
iteration transfers `c = min(rest, chunk_bytes)` bytes and adds `c` to
the per-file byte counter `fdcount`.  The loop condition consults only
`rest` (and the signal/abort flags, absent here) — the `max_file_size`
value computed at line 2268 is not read anywhere in the function.
`fuel` bounds the number of iterations (`none` = fuel ran out). -/
def capture_file_loop (chunk_bytes : Nat) : Nat → Nat → Nat → Option Nat
  | 0, _, _ => none
  | fuel + 1, rest, fdcount =>
    if rest = 0 then some fdcount
    else
      capture_file_loop chunk_bytes fuel (rest - min rest chunk_bytes)
        (fdcount + min rest chunk_bytes)

/-- The outer do/while of `capture` (lines 2292-2357) for a
regular-file target with a time/sample limit configured: each pass
sets `rest = count`, runs the inner loop for one file, subtracts the
moved bytes from `count`, and repeats while `count > 0`.  Returns the
byte sizes of the files produced.  The `max_file_size` argument is the
value computed at line 2268; exactly as in the source, it is never
consulted. -/
def capture_files (chunk_bytes max_file_size : Nat) : Nat → Nat → Nat → Option (List Nat)
  | 0, _, _ => none
  | fuel + 1, innerFuel, count =>
    (capture_file_loop chunk_bytes innerFuel count 0).bind (fun fdcount =>
      if count - fdcount > 0 then
        (capture_files chunk_bytes max_file_size fuel innerFuel (count - fdcount)).map
          (fun files => fdcount :: files)
      else some [fdcount])

/-! ### Capture file naming (new_capture_file lines 2147-2200,
mystrftime lines 2094-2145) -/

/-- `sprintf(buf, "%02d", n)` / the `%02i` of `new_capture_file`:
decimal digits of `n`, zero-padded on the left to a minimum width of
two. -/
def fmt02 (n : Nat) : List Char :=
  if n < 10 then '0' :: Nat.toDigits 10 n else Nat.toDigits 10 n

/-- The extension-splitting scan of `new_capture_file` (lines
2173-2180): walk backwards from the end of the name until a `'.'` or
`'/'` is hit.  The argument is the reversed name; `acc` holds the
characters already passed (in original order).  Returns the C
function's `(buf, s)` pair: the (possibly truncated) stem and the
string `s` printed after the dash-number (on a `'.'` hit, the
extension; on a `'/'` hit, the empty string with the stem left whole;
with no separator at all, `s` stays at `buf`, so both components are
the whole name). -/
def splitNameAux : List Char → List Char → List Char × List Char
  | [], acc =>
    match acc with
    | [] => ([], [])
    | c :: cs =>
      if c = '.' then ([], cs)
      else if c = '/' then (c :: cs, [])
      else (c :: cs, c :: cs)
  | c :: rest, acc =>
    if c = '.' then (rest.reverse, acc)
    else if c = '/' then ((c :: rest).reverse ++ acc, [])
    else splitNameAux rest (c :: acc)

def splitName (name : List Char) : List Char × List Char :=
  splitNameAux name.reverse []

/-- The `snprintf(namebuf, namelen, "%s-%02i.%s", buf, filecount, s)` /
`"%s-%02i"` pair of `new_capture_file` (lines 2183-2197), chosen on
`if (*s)`. -/
def mkNumName (stem ext : List Char) (nn : Nat) : List Char :=
  if ext.isEmpty then stem ++ '-' :: fmt02 nn
  else stem ++ '-' :: (fmt02 nn ++ '.' :: ext)

/-- File-system side effects performed by the rotation code. -/
inductive FsOp where
  | removeFile (path : List Char)
  | renameFile (src dst : List Char)
  deriving Repr, DecidableEq

/-- The counter-based (non-strftime) branch of `new_capture_file`
(lines 2169-2199): on `filecount == 1` (the very first rotation) the
`-01` name is computed, any file at that path is removed, the
still-open original file is renamed onto it, and `filecount` becomes
2; then the current file's name `<stem>-NN[.<ext>]` is produced.
Returns `(namebuf, filecount, side effects)`. -/
def new_capture_file_counter (name : List Char) (filecount : Nat) :
    List Char × Nat × List FsOp :=
  if filecount = 1 then
    ((mkNumName (splitName name).1 (splitName name).2 2, 2,
      [FsOp.removeFile (mkNumName (splitName name).1 (splitName name).2 1),
       FsOp.renameFile name (mkNumName (splitName name).1 (splitName name).2 1)]))
  else (mkNumName (splitName name).1 (splitName name).2 filecount, filecount, [])

/-- The format-string construction loop of `mystrftime` (lines
2110-2143): `%v` expands to `sprintf("%02d", filenumber)`, a lone
trailing `%` is copied, every other `%`-code is copied through
verbatim (for the later `strftime` call), and plain characters are
copied.  The result is the string handed to `strftime`; the
calendar-time expansion itself is the external libc collaborator. -/
def mystrftime_format : List Char → Nat → List Char
  | [], _ => []
  | c :: rest, n =>
    if c = '%' then
      match rest with
      | [] => ['%']
      | c2 :: rest2 =>
        if c2 = 'v' then fmt02 n ++ mystrftime_format rest2 n
        else '%' :: c2 :: mystrftime_format rest2 n
    else c :: mystrftime_format rest n

/-- The strftime branch of `new_capture_file` (lines 2155-2167): the
name template is formatted with file number `filecount + 1` (one-based),
`filecount` is returned unchanged and no rename/remove happens. -/
def new_capture_file_strftime (name : List Char) (filecount : Nat) :
    List Char × Nat × List FsOp :=
  (mystrftime_format name (filecount + 1), filecount, [])

/-- Accumulated outcome of a sequence of capture-file openings: the
names opened in order, the file-system operations performed, and the
final `filecount`. -/
structure RotOut where
  opened : List (List Char)
  ops : List FsOp
  filecount : Nat
  deriving Repr, DecidableEq

/-- The file-opening head of the capture do/while (lines 2292-2314),
counter-based naming: on the first pass (`filecount == 0`, and not
strftime mode) the original name is used unchanged; later passes call
`new_capture_file`.  Any regular file already at the target is removed
(lines 2304-2307), the file is opened, and `filecount` is
incremented.  `n` is the number of files opened. -/
def capture_rotation_steps (orig : List Char) : Nat → Nat → RotOut
  | 0, filecount => ⟨[], [], filecount⟩
  | n + 1, filecount =>
    let nf := if filecount = 0 then (orig, filecount, ([] : List FsOp))
              else new_capture_file_counter orig filecount
    let rest := capture_rotation_steps orig n (nf.2.1 + 1)
    ⟨nf.1 :: rest.opened, (nf.2.2 ++ [FsOp.removeFile nf.1]) ++ rest.ops,
      rest.filecount⟩

/-- The same opening loop in strftime mode: `new_capture_file` is
called for every file including the first
(`if (filecount || use_strftime)`). -/
def capture_rotation_steps_strf (orig : List Char) : Nat → Nat → RotOut
  | 0, filecount => ⟨[], [], filecount⟩
  | n + 1, filecount =>
    let nf := new_capture_file_strftime orig filecount
    let rest := capture_rotation_steps_strf orig n (nf.2.1 + 1)
    ⟨nf.1 :: rest.opened, (nf.2.2 ++ [FsOp.removeFile nf.1]) ++ rest.ops,
      rest.filecount⟩

/-- Template tokens for reasoning about `mystrftime` inputs: a plain
character, a `%`-code passed through to `strftime`, and the
file-number escape `%v`. -/
inductive FTok where
  | lit (c : Char)
  | pct (c : Char)
  | fileNo
  deriving Repr, DecidableEq

def renderTok : FTok → List Char
  | FTok.lit c => [c]
  | FTok.pct c => ['%', c]
  | FTok.fileNo => ['%', 'v']

def renderToks (ts : List FTok) : List Char := (ts.map renderTok).flatten

def expandTok (n : Nat) : FTok → List Char
  | FTok.lit c => [c]
  | FTok.pct c => ['%', c]
  | FTok.fileNo => fmt02 n

def expandToks (n : Nat) (ts : List FTok) : List Char :=
  (ts.map (expandTok n)).flatten

/-- Well-formedness of a token for unambiguous rendering: a literal is
not the escape character, and a pass-through code is not `v`. -/
def tokOk : FTok → Bool
  | FTok.lit c => c ≠ '%'
  | FTok.pct c => c ≠ 'v'
  | FTok.fileNo => true

/-! ### Abort handling and exit status (signal_handler lines 359-377,
prg_exit lines 349-357, capture line 2351-2352, main lines 829-860) -/

inductive StreamDir where
  | playback
  | capture
  deriving Repr, DecidableEq

/-- What the process reports and cleans up on termination. -/
structure ExitOutcome where
  code : Nat
  closedDevice : Bool
  removedPidfile : Bool
  deriving Repr, DecidableEq

def EXIT_SUCCESS : Nat := 0
def EXIT_FAILURE : Nat := 1

/-- `prg_exit(code)` (lines 349-357): closes the device handle if it
is still set, removes the pid file if one was written, exits with
`code`. -/
def prg_exit (handleOpen pidfileWritten : Bool) (code : Nat) : ExitOutcome :=
  ⟨code, handleOpen, pidfileWritten⟩

/-- Exit path of a single-file interleaved run under a user abort
model: on SIGABRT the handler nulls the handle and calls
`prg_exit(EXIT_FAILURE)` directly (lines 371-375, device not closed);
an abort observed by `capture` reaches `prg_exit(EXIT_FAILURE)` at
line 2352 with the handle still open; every other run — including a
playback aborted by SIGINT/SIGTERM, whose loops simply unwind — falls
through the end of `main`, which closes the handle (line 851) and
calls `prg_exit(EXIT_SUCCESS)` (line 857). -/
def run_exit (dir : StreamDir) (aborted sigabrt pidfileWritten : Bool) :
    ExitOutcome :=
  if aborted && sigabrt then prg_exit false pidfileWritten EXIT_FAILURE
  else
    match dir with
    | StreamDir.capture =>
      if aborted then prg_exit true pidfileWritten EXIT_FAILURE
      else ⟨EXIT_SUCCESS, true, pidfileWritten⟩
    | StreamDir.playback => ⟨EXIT_SUCCESS, true, pidfileWritten⟩

/-! ### Buffer-position monitor (do_test_position, fplay.c lines 1593-1686)

The C accumulators `availsum`, `delaysum` and `samples` are `float`;
they are modelled exactly over `Int`/`Nat` here, which is faithful for
the properties below (whether the branch zeroes them or leaves them
untouched does not depend on rounding).  `tmr` is the static `time_t`
initialised to `-1`. -/

structure BufStats where
  availsum : Int
  delaysum : Int
  samples : Nat
  maxavail : Int
  maxdelay : Int
  minavail : Int
  mindelay : Int
  badavail : Int
  baddelay : Int
  counter : Nat
  tmr : Int
  deriving Repr, DecidableEq

/-- The accumulator reset performed by the two envelope branches and
by the `tmr == -1` initialisation: sums and sample count cleared,
maxima zeroed, minima re-armed to `buffer_frames * 16`. -/
def resetAccums (buffer_frames : Nat) (st : BufStats) : BufStats :=
  { st with availsum := 0, delaysum := 0, samples := 0,
            maxavail := 0, maxdelay := 0,
            minavail := (buffer_frames * 16 : Nat),
            mindelay := (buffer_frames * 16 : Nat) }

structure TestPosOut where
  st : BufStats
  suspicious : Bool
  deriving Repr, DecidableEq

/-- `do_test_position` (lines 1593-1686): `avail`/`delay` come from
`snd_pcm_avail_delay`, `savail`/`sdelay` from the status snapshot;
`outofrange = test_coef * buffer_frames / 2`.  The first two branches
(either pair outside the envelope) report, record the bad pair, bump
the counter and reset the accumulators; the next two (capture mode,
`avail > delay` on either pair) report and bump the counter only; the
verbose branch accumulates min/max/sums (initialising on `tmr == -1`)
and refreshes `tmr` when the once-per-second summary is printed. -/
def do_test_position (capture verbose : Bool) (test_coef buffer_frames : Nat)
    (avail delay savail sdelay now : Int) (st : BufStats) : TestPosOut :=
  if avail > ((test_coef * buffer_frames) / 2 : Nat) ∨
     avail < -((test_coef * buffer_frames) / 2 : Nat) ∨
     delay > ((test_coef * buffer_frames) / 2 : Nat) ∨
     delay < -((test_coef * buffer_frames) / 2 : Nat) then
    TestPosOut.mk
      ({ (resetAccums buffer_frames st) with
          badavail := avail,
          baddelay := delay,
          counter := st.counter + 1 })
      true
  else if savail > ((test_coef * buffer_frames) / 2 : Nat) ∨
          savail < -((test_coef * buffer_frames) / 2 : Nat) ∨
          sdelay > ((test_coef * buffer_frames) / 2 : Nat) ∨
          sdelay < -((test_coef * buffer_frames) / 2 : Nat) then
    TestPosOut.mk
      ({ (resetAccums buffer_frames st) with
          badavail := savail,
          baddelay := sdelay,
          counter := st.counter + 1 })
      true
  else if capture ∧ avail > delay then
    ⟨{ st with counter := st.counter + 1 }, true⟩
  else if capture ∧ savail > sdelay then
    ⟨{ st with counter := st.counter + 1 }, true⟩
  else if verbose then
    TestPosOut.mk
      (let st1 := if st.tmr = -1 then { (resetAccums buffer_frames st) with tmr := now }
                  else st
       let st2 := { st1 with
         maxavail := max (max st1.maxavail avail) savail,
         maxdelay := max (max st1.maxdelay delay) sdelay,
         minavail := min (min st1.minavail avail) savail,
         mindelay := min (min st1.mindelay delay) sdelay,
         availsum := st1.availsum + avail,
         delaysum := st1.delaysum + delay,
         samples := st1.samples + 1 }
       if (st2.maxavail ≠ 0 ∨ st2.maxdelay ≠ 0) ∧ now ≠ st2.tmr then
         { st2 with tmr := now }
       else st2)
      false
  else ⟨st, false⟩

end Fplay

namespace Fplay

/-! ## Theorems -/

theorem xwriteGo_ret_eq_iff (trace : List Int) :
    ∀ offset count ret written,
      xwriteGo trace offset count = some (ret, written) →
      offset ≤ written ∧
      (ret = (count : Int) ↔ written = count) ∧
      (ret < (count : Int) → ret ≤ 0) := by
  induction trace with
  | nil =>
    intro offset count ret written h
    rw [xwriteGo] at h
    by_cases hlt : offset < count
    · simp [hlt] at h
    · simp [hlt] at h
      obtain ⟨h1, h2⟩ := h
      omega
  | cons w rest ih =>
    intro offset count ret written h
    rw [xwriteGo] at h
    by_cases hlt : offset < count
    · simp only [if_pos hlt] at h
      by_cases hw : w ≤ 0
      · simp [hw] at h
        obtain ⟨h1, h2⟩ := h
        subst h1; subst h2
        refine ⟨le_rfl, ?_, fun _ => hw⟩
        constructor
        · intro hr
          exact absurd hr (by
            have : (0 : Int) < (count : Int) := by
              exact_mod_cast Nat.lt_of_le_of_lt (Nat.zero_le _) hlt
            omega)
        · intro hw'
          exact absurd hw' (Nat.ne_of_lt hlt)
      · simp only [if_neg hw] at h
        obtain ⟨hle, hiff, hneg⟩ := ih (offset + w.toNat) count ret written h
        exact ⟨le_trans (Nat.le_add_right _ _) hle, hiff, hneg⟩
    · simp [hlt] at h
      obtain ⟨h1, h2⟩ := h
      omega

/-- C10: `xwrite` returns `count` exactly when all `count` bytes were
written (retrying over any number of short positive writes); an
underlying `write` result that is zero or negative is returned
immediately from the point it occurs, so the return value equals
`count` if and only if the whole buffer was written.  `written` is the
total number of bytes accepted by the underlying writes. -/
theorem xwrite_returns_count_iff_complete
    (trace : List Int) (count : Nat) (ret : Int) (written : Nat)
    (h : xwrite trace count = some (ret, written)) :
    (ret = (count : Int) ↔ written = count) ∧
    (ret < (count : Int) → ret ≤ 0) ∧
    (∀ w rest, trace = w :: rest → w ≤ 0 → 0 < count →
      ret = w ∧ written = 0) := by
  have hmain := xwriteGo_ret_eq_iff trace 0 count ret written h
  refine ⟨hmain.2.1, hmain.2.2, ?_⟩
  intro w rest htr hw hc
  subst htr
  rw [xwrite, xwriteGo] at h
  simp [hc, hw] at h
  exact ⟨h.1.symm, h.2.symm⟩

/-- Witness for C10: on the write trace `[2, 3]` with `count = 5`,
`xwrite` returns `5` having written all `5` bytes, and the proved
equivalences hold there. -/
theorem xwrite_returns_count_iff_complete_witness :
    ((5 : Int) = ((5 : Nat) : Int) ↔ (5 : Nat) = 5) ∧
    ((5 : Int) < ((5 : Nat) : Int) → (5 : Int) ≤ 0) ∧
    (∀ w rest, ([2, 3] : List Int) = w :: rest → w ≤ 0 → 0 < 5 →
      (5 : Int) = w ∧ (5 : Nat) = 0) :=
  xwrite_returns_count_iff_complete [2, 3] 5 5 5 (by decide)

theorem clampPeak_le (m p : Nat) : clampPeak m p ≤ m := by
  unfold clampPeak
  split
  · exact le_rfl
  · omega

theorem percOf_le_100 (width m p : Nat) (hp : p ≤ m) (hm : 0 < m)
    (hhi : width > 16 → m / (m / 100) ≤ 100) : percOf width m p ≤ 100 := by
  unfold percOf
  split
  · exact le_trans (Nat.div_le_div_right hp) (hhi (by assumption))
  · calc p * 100 / m ≤ m * 100 / m := Nat.div_le_div_right (Nat.mul_le_mul_right _ hp)
    _ = 100 := Nat.mul_div_cancel_left 100 hm

theorem cMax_le_fullscale (sb : Nat) (h : sb = 8 ∨ sb = 16 ∨ sb = 24 ∨ sb = 32) :
    cMax sb ≤ 2 ^ (sb - 1) ∧ 0 < cMax sb := by
  rcases h with h | h | h | h <;> subst h <;> exact ⟨by decide, by decide⟩

theorem cMax_div100 (sb : Nat) (h : sb = 24 ∨ sb = 32) :
    cMax sb / (cMax sb / 100) ≤ 100 := by
  rcases h with h | h <;> subst h <;> decide

/-- C6: for every decoded amplitude sequence at a supported bit width,
the per-channel peak is clamped to the full-scale value
`2 ^ (significant_bits - 1)` (for 32 significant bits the clamp
constant is the representable `0x7fffffff`), and the computed peak
percentage always lies in `[0, 100]`; in particular it is in `[0, 100]`
for non-clipping input, and "exceeds 100 only when a literal
full-scale boundary value is present" holds vacuously because even the
boundary pattern `0x80000000` is mapped to `0x7fffffff` and the clamp
keeps every percentage at most 100. -/
theorem compute_max_peak_clamped_and_bounded
    (width sb : Nat) (le : Bool) (mask : Nat) (stereo : Bool)
    (bytes : List Nat) (run : Bool)
    (h : supportedCombo width sb) :
    ∃ peaks percs,
      (compute_max_peak width sb le mask stereo bytes run).meter =
        some (peaks, percs) ∧
      (∀ p ∈ peaks, p ≤ 2 ^ (sb - 1)) ∧
      (∀ q ∈ percs, q ≤ 100) := by
  have hsb : sb = 8 ∨ sb = 16 ∨ sb = 24 ∨ sb = 32 := by
    rcases h with ⟨_, h'⟩ | ⟨_, h'⟩ | ⟨_, h'⟩ <;> tauto
  have hw : width = 8 ∨ width = 16 ∨ width = 24 ∨ width = 32 := by
    rcases h with ⟨h', _⟩ | ⟨h', _⟩ | ⟨h', _⟩ <;> tauto
  obtain ⟨hcle, hcpos⟩ := cMax_le_fullscale sb hsb
  have hhi : width > 16 → cMax sb / (cMax sb / 100) ≤ 100 := by
    intro hgt
    rcases h with ⟨h', _⟩ | ⟨h', _⟩ | ⟨_, h'⟩
    · omega
    · omega
    · exact cMax_div100 sb h'
  have hdec : ∃ vals, decodeAbs width le mask bytes = some vals := by
    rcases hw with h' | h' | h' | h' <;> subst h' <;>
      simp [decodeAbs]
  obtain ⟨vals, hvals⟩ := hdec
  rw [compute_max_peak, hvals]
  cases stereo with
  | true =>
    refine ⟨_, _, rfl, ?_, ?_⟩
    · intro p hp
      simp at hp
      rcases hp with h' | h' <;> subst h' <;>
        exact le_trans (clampPeak_le _ _) hcle
    · intro q hq
      simp at hq
      rcases hq with h' | h' <;> subst h' <;>
        exact percOf_le_100 width _ _ (clampPeak_le _ _) hcpos hhi
  | false =>
    refine ⟨_, _, rfl, ?_, ?_⟩
    · intro p hp
      simp at hp
      subst hp
      exact le_trans (clampPeak_le _ _) hcle
    · intro q hq
      simp at hq
      subst hq
      exact percOf_le_100 width _ _ (clampPeak_le _ _) hcpos hhi

/-- Witness for C6: a 16-bit little-endian chunk containing the
full-scale negative sample `0x8000` meters with peak `32768` and
percentage `100`. -/
theorem compute_max_peak_clamped_and_bounded_witness :
    ∃ peaks percs,
      (compute_max_peak 16 16 true 0 false [0, 128] false).meter =
        some (peaks, percs) ∧
      (∀ p ∈ peaks, p ≤ 2 ^ (16 - 1)) ∧
      (∀ q ∈ percs, q ≤ 100) :=
  compute_max_peak_clamped_and_bounded 16 16 true 0 false [0, 128] false
    (Or.inr (Or.inl ⟨rfl, rfl⟩))

theorem silenceFill_length (pat : List Nat) (n : Nat) :
    (silenceFill pat n).length = n * pat.length := by
  induction n with
  | zero => simp [silenceFill]
  | succ k ih =>
    rw [silenceFill, List.replicate_succ, List.flatten_cons, List.length_append]
    rw [show (List.replicate k pat).flatten = silenceFill pat k from rfl, ih]
    ring

theorem pcm_write_go_total (cfg : Cfg) (evs : List DevEv) :
    ∀ count data result delivered run reports,
      acceptsAll evs count = true →
      List.length data = count * cfg.bpf →
      ∃ w : WriteRes,
        pcm_write_go cfg evs data count result delivered run reports = some w ∧
        w.result = result + count ∧ w.delivered = delivered ++ data := by
  induction evs with
  | nil =>
    intro count data result delivered run reports hacc hlen
    cases count with
    | zero =>
      have hd : data = [] := List.length_eq_zero.mp (by simpa using hlen)
      subst hd
      exact ⟨⟨result, delivered, run, reports⟩, by rw [pcm_write_go]; simp,
        by simp, by simp⟩
    | succ n => simp [acceptsAll] at hacc
  | cons e rest ih =>
    intro count data result delivered run reports hacc hlen
    cases count with
    | zero =>
      have hd : data = [] := List.length_eq_zero.mp (by simpa using hlen)
      subst hd
      cases e with
      | abortSig =>
        exact ⟨⟨result, delivered, run, reports⟩, rfl, by simp, by simp⟩
      | accept r =>
        exact ⟨⟨result, delivered, run, reports⟩, by rw [pcm_write_go]; simp,
          by simp, by simp⟩
    | succ n =>
      cases e with
      | abortSig => simp [acceptsAll] at hacc
      | accept r =>
        simp only [acceptsAll, Bool.and_eq_true, decide_eq_true_eq] at hacc
        obtain ⟨hr, hrest⟩ := hacc
        by_cases hr0 : r = 0
        · subst hr0
          obtain ⟨w, hw, h1, h2⟩ :=
            ih (n + 1) data result delivered run reports (by simpa using hrest) hlen
          refine ⟨w, ?_, h1, h2⟩
          rw [pcm_write_go]
          simpa using hw
        · have hdrop : (data.drop (r * cfg.bpf)).length = (n + 1 - r) * cfg.bpf := by
            rw [List.length_drop, hlen, Nat.sub_mul]
          obtain ⟨w, hw, h1, h2⟩ :=
            ih (n + 1 - r) (data.drop (r * cfg.bpf)) (result + r)
              (delivered ++ data.take (r * cfg.bpf))
              (if cfg.vumeter then
                (compute_max_peak cfg.width cfg.sb cfg.le cfg.mask cfg.stereo
                  (data.take (r * cfg.bpf)) run).run
               else run)
              (reports +
               (if cfg.vumeter then
                 (compute_max_peak cfg.width cfg.sb cfg.le cfg.mask cfg.stereo
                   (data.take (r * cfg.bpf)) run).reports
                else 0))
              hrest hdrop
          refine ⟨w, ?_, by rw [h1]; omega, ?_⟩
          · rw [pcm_write_go]
            simpa [hr0] using hw
          · rw [h2, List.append_assoc, List.take_append_drop]

/-- C1: a playback transfer request of `0 < count < chunk_size` frames
(the last partial chunk of a stream) is padded with the silence
pattern over frames `count .. chunk_size-1` of all channels and, in a
fault-free abort-free run in which the device accepts everything, a
whole chunk of `chunk_size` frames is delivered; the delivered byte
total is the input length rounded up to a whole chunk (the least
multiple of the chunk byte size that is at least the input length) and
the padding region is bit-exactly the repeated silence pattern. -/
theorem pcm_write_partial_chunk_padded (cfg : Cfg) (evs : List DevEv)
    (data : List Nat) (count : Nat) (run : Bool)
    (hc0 : 0 < count) (hcs : count < cfg.chunk_size)
    (hlen : data.length = count * cfg.bpf)
    (hsil : cfg.silPat.length = cfg.bps)
    (hch : 0 < cfg.channels) (hbps : 0 < cfg.bps)
    (hacc : acceptsAll evs cfg.chunk_size = true) :
    ∃ w : WriteRes,
      pcm_write cfg evs data count run = some w ∧
      w.result = cfg.chunk_size ∧
      w.delivered =
        data ++ silenceFill cfg.silPat ((cfg.chunk_size - count) * cfg.channels) ∧
      w.delivered.length = cfg.chunk_size * cfg.bpf ∧
      w.delivered.drop data.length =
        silenceFill cfg.silPat ((cfg.chunk_size - count) * cfg.channels) ∧
      w.delivered.length % (cfg.chunk_size * cfg.bpf) = 0 ∧
      data.length ≤ w.delivered.length ∧
      w.delivered.length < data.length + cfg.chunk_size * cfg.bpf := by
  have hfl : (silenceFill cfg.silPat ((cfg.chunk_size - count) * cfg.channels)).length
      = (cfg.chunk_size - count) * cfg.bpf := by
    rw [silenceFill_length, hsil, Cfg.bpf]
    ring
  have hplen :
      (data ++ silenceFill cfg.silPat ((cfg.chunk_size - count) * cfg.channels)).length
        = cfg.chunk_size * cfg.bpf := by
    rw [List.length_append, hlen, hfl, ← Nat.add_mul,
      Nat.add_sub_cancel' (le_of_lt hcs)]
  obtain ⟨w, hw, h1, h2⟩ :=
    pcm_write_go_total cfg evs cfg.chunk_size
      (data ++ silenceFill cfg.silPat ((cfg.chunk_size - count) * cfg.channels))
      0 [] run 0 hacc hplen
  have hdel : w.delivered =
      data ++ silenceFill cfg.silPat ((cfg.chunk_size - count) * cfg.channels) := by
    simpa using h2
  have hpos : 0 < count * cfg.bpf :=
    Nat.mul_pos hc0 (Nat.mul_pos hch hbps)
  refine ⟨w, ?_, by omega, hdel, ?_, ?_, ?_, ?_, ?_⟩
  · rw [pcm_write]
    simp only [if_pos hcs]
    rw [← hlen, List.take_length]
    exact hw
  · rw [hdel]; exact hplen
  · rw [hdel]
    exact List.drop_left data _
  · rw [hdel, hplen, Nat.mod_self]
  · rw [hdel, hplen, hlen]
    exact Nat.mul_le_mul_right _ (le_of_lt hcs)
  · rw [hdel, hplen, hlen]
    omega

/-- Witness for C1: chunk size 4 frames, mono 8-bit with silence byte
`0x80`, a 2-frame request `[1, 2]` and a device that accepts all 4
frames in one call: the whole chunk `[1, 2, 0x80, 0x80]` is
delivered. -/
theorem pcm_write_partial_chunk_padded_witness :
    ∃ w : WriteRes,
      pcm_write ⟨4, 1, 1, [128], 8, 8, true, 128, false, false⟩
        [DevEv.accept 4] [1, 2] 2 false = some w ∧
      w.result = Cfg.chunk_size ⟨4, 1, 1, [128], 8, 8, true, 128, false, false⟩ ∧
      w.delivered = [1, 2] ++ silenceFill [128] ((4 - 2) * 1) ∧
      w.delivered.length = 4 * Cfg.bpf ⟨4, 1, 1, [128], 8, 8, true, 128, false, false⟩ ∧
      w.delivered.drop (List.length [1, 2]) = silenceFill [128] ((4 - 2) * 1) ∧
      w.delivered.length % (4 * Cfg.bpf ⟨4, 1, 1, [128], 8, 8, true, 128, false, false⟩) = 0 ∧
      List.length [1, 2] ≤ w.delivered.length ∧
      w.delivered.length <
        List.length [1, 2] + 4 * Cfg.bpf ⟨4, 1, 1, [128], 8, 8, true, 128, false, false⟩ :=
  pcm_write_partial_chunk_padded ⟨4, 1, 1, [128], 8, 8, true, 128, false, false⟩
    [DevEv.accept 4] [1, 2] 2 false (by decide) (by decide) (by decide)
    (by decide) (by decide) (by decide) (by decide)

theorem pcm_write_go_frames (cfg : Cfg) (evs : List DevEv) :
    ∀ count data result delivered run reports w,
      stepsValid evs count = true →
      data.length = count * cfg.bpf →
      delivered.length = result * cfg.bpf →
      pcm_write_go cfg evs data count result delivered run reports = some w →
      w.delivered.length = w.result * cfg.bpf := by
  induction evs with
  | nil =>
    intro count data result delivered run reports w _ hlen hdel hw
    rw [pcm_write_go] at hw
    by_cases hc : count = 0
    · simp [hc] at hw
      rw [← hw]
      exact hdel
    · simp [hc] at hw
  | cons e rest ih =>
    intro count data result delivered run reports w hv hlen hdel hw
    cases e with
    | abortSig =>
      rw [pcm_write_go] at hw
      simp at hw
      rw [← hw]
      exact hdel
    | accept r =>
      rw [pcm_write_go] at hw
      simp only [stepsValid, Bool.and_eq_true, decide_eq_true_eq] at hv
      obtain ⟨hr, hrest⟩ := hv
      by_cases hc : count = 0
      · simp [hc] at hw
        rw [← hw]
        exact hdel
      · simp only [if_neg hc] at hw
        by_cases hr0 : r = 0
        · subst hr0
          simp only [if_pos rfl] at hw
          exact ih count data result delivered run reports w
            (by simpa using hrest) hlen hdel hw
        · simp only [if_neg hr0] at hw
          have htake : (data.take (r * cfg.bpf)).length = r * cfg.bpf := by
            rw [List.length_take, hlen]
            exact min_eq_left (Nat.mul_le_mul_right _ hr)
          refine ih (count - r) (data.drop (r * cfg.bpf)) (result + r)
            (delivered ++ data.take (r * cfg.bpf)) _ _ w hrest ?_ ?_ hw
          · rw [List.length_drop, hlen, Nat.sub_mul]
          · rw [List.length_append, hdel, htake, Nat.add_mul]

/-- C2 (amended): `pcm_write` returns the total number of frames
actually transferred to the device (its `delivered` byte count is
exactly `result * bytes_per_frame`), but `pcm_read` always returns the
requested count `rcount` — both on completion and at its `abort`
label — regardless of how many frames were actually read, so a caller
comparing `pcm_read`'s return value against the requested count can
never detect early termination. -/
theorem transfer_functions_return_values (cfg : Cfg) (evs : List DevEv)
    (data : List Nat) (count : Nat) (run : Bool) (w : WriteRes)
    (hlen : data.length = count * cfg.bpf)
    (hsil : cfg.silPat.length = cfg.bps)
    (hv : stepsValid evs
      (if count < cfg.chunk_size then cfg.chunk_size else count) = true)
    (hw : pcm_write cfg evs data count run = some w) :
    w.delivered.length = w.result * cfg.bpf ∧
    ∀ chunk_size evs2 rcount p,
      pcm_read chunk_size evs2 rcount = some p → p.1 = rcount := by
  constructor
  · have hplen :
        (if count < cfg.chunk_size then
          data.take (count * cfg.bpf) ++
            silenceFill cfg.silPat ((cfg.chunk_size - count) * cfg.channels)
         else data).length
          = (if count < cfg.chunk_size then cfg.chunk_size else count) * cfg.bpf := by
      by_cases hcs : count < cfg.chunk_size
      · simp only [if_pos hcs]
        rw [List.length_append, ← hlen, List.take_length, hlen,
          silenceFill_length, hsil]
        rw [show (cfg.chunk_size - count) * cfg.channels * cfg.bps
            = (cfg.chunk_size - count) * cfg.bpf by rw [Cfg.bpf]; ring]
        rw [← Nat.add_mul, Nat.add_sub_cancel' (le_of_lt hcs)]
      · simp [hcs, hlen]
    exact pcm_write_go_frames cfg evs _ _ 0 [] run 0 w hv hplen (by simp) hw
  · intro chunk_size evs2 rcount p hp
    rw [pcm_read, Option.map_eq_some'] at hp
    obtain ⟨res, _, h2⟩ := hp
    rw [← h2]

/-- Witness for C2's amended theorem, at chunk size 4, mono 8-bit,
request `[1, 2]` of 2 frames, device accepting the whole padded
chunk. -/
theorem transfer_functions_return_values_witness :
    (WriteRes.delivered ⟨4, [1, 2, 128, 128], false, 0⟩).length =
      WriteRes.result ⟨4, [1, 2, 128, 128], false, 0⟩ *
        Cfg.bpf ⟨4, 1, 1, [128], 8, 8, true, 128, false, false⟩ ∧
    ∀ chunk_size evs2 rcount p,
      pcm_read chunk_size evs2 rcount = some p → p.1 = rcount :=
  transfer_functions_return_values
    ⟨4, 1, 1, [128], 8, 8, true, 128, false, false⟩
    [DevEv.accept 4] [1, 2] 2 false ⟨4, [1, 2, 128, 128], false, 0⟩
    (by decide) (by decide) (by decide) (by decide)

/-- C2 counterexample: the claim that `pcm_read`'s return value equals
the number of frames actually read is false — with the abort flag
observed before any device call, `pcm_read` with `rcount = 5` (chunk
size 8) returns 5 although 0 frames were read, so the caller's
comparison `read != f` cannot fire. -/
theorem pcm_read_return_counterexample :
    pcm_read 8 [DevEv.abortSig] 5 = some (5, 0) ∧ (5 : Nat) ≠ 0 :=
  ⟨rfl, by decide⟩

theorem compute_max_peak_unsupported (width sb : Nat) (le : Bool) (mask : Nat)
    (stereo : Bool) (bytes : List Nat) (run : Bool)
    (h8 : width ≠ 8) (h16 : width ≠ 16) (h24 : width ≠ 24) (h32 : width ≠ 32) :
    compute_max_peak width sb le mask stereo bytes run =
      if run then ⟨run, 0, none⟩ else ⟨true, 1, none⟩ := by
  rw [compute_max_peak]
  simp [decodeAbs, h8, h16, h24, h32]

theorem peakRunFold_flag_set (width sb : Nat) (le : Bool) (mask : Nat)
    (stereo : Bool)
    (h8 : width ≠ 8) (h16 : width ≠ 16) (h24 : width ≠ 24) (h32 : width ≠ 32) :
    ∀ bufs, peakRunFold width sb le mask stereo bufs true = (true, 0) := by
  intro bufs
  induction bufs with
  | nil => rfl
  | cons b rest ih =>
    rw [peakRunFold,
      compute_max_peak_unsupported width sb le mask stereo b true h8 h16 h24 h32]
    simp [ih]

theorem pcm_write_go_view (cfg : Cfg) (evs : List DevEv) :
    ∀ data count result delivered runA repA runB repB,
      Option.map WriteRes.view
        (pcm_write_go cfg evs data count result delivered runA repA) =
      Option.map WriteRes.view
        (pcm_write_go {cfg with vumeter := false} evs data count result
          delivered runB repB) := by
  induction evs with
  | nil =>
    intro data count result delivered runA repA runB repB
    rw [pcm_write_go, pcm_write_go]
    by_cases hc : count = 0 <;> simp [hc, WriteRes.view]
  | cons e rest ih =>
    intro data count result delivered runA repA runB repB
    cases e with
    | abortSig =>
      rw [pcm_write_go, pcm_write_go]
      simp [WriteRes.view]
    | accept r =>
      rw [pcm_write_go, pcm_write_go]
      by_cases hc : count = 0
      · simp [hc, WriteRes.view]
      · simp only [if_neg hc]
        by_cases hr : r = 0
        · simp only [hr, if_pos rfl]
          exact ih data count result delivered runA repA runB repB
        · simp only [if_neg hr]
          exact ih _ _ _ _ _ _ _ _

/-- C7: for a stream whose physical bit width is not in
`{8, 16, 24, 32}`, the peak meter reports the unsupported-width
condition exactly once over the whole stream of chunks (the static
`run` flag suppresses all later reports), every call skips metering
(produces no meter output), and the transfer itself is unaffected:
`pcm_write`'s returned frame total and delivered bytes are identical
to a run with metering disabled. -/
theorem unsupported_width_reports_once
    (width sb : Nat) (le : Bool) (mask : Nat) (stereo : Bool)
    (bufs : List (List Nat))
    (h8 : width ≠ 8) (h16 : width ≠ 16) (h24 : width ≠ 24) (h32 : width ≠ 32)
    (hne : bufs ≠ []) :
    (peakRunFold width sb le mask stereo bufs false).2 = 1 ∧
    (∀ bytes run,
      (compute_max_peak width sb le mask stereo bytes run).meter = none) ∧
    (∀ cfg : Cfg, ∀ evs data count runA runB,
      Option.map WriteRes.view (pcm_write cfg evs data count runA) =
      Option.map WriteRes.view
        (pcm_write {cfg with vumeter := false} evs data count runB)) := by
  refine ⟨?_, ?_, ?_⟩
  · cases bufs with
    | nil => exact absurd rfl hne
    | cons b rest =>
      rw [peakRunFold,
        compute_max_peak_unsupported width sb le mask stereo b false h8 h16 h24 h32]
      simp [peakRunFold_flag_set width sb le mask stereo h8 h16 h24 h32 rest]
  · intro bytes run
    rw [compute_max_peak_unsupported width sb le mask stereo bytes run h8 h16 h24 h32]
    cases run <;> simp
  · intro cfg evs data count runA runB
    rw [pcm_write, pcm_write]
    exact pcm_write_go_view cfg evs _ _ 0 [] runA 0 runB 0

/-- Witness for C7 at width 20 with a one-chunk stream. -/
theorem unsupported_width_reports_once_witness :
    (peakRunFold 20 20 true 0 false [[0]] false).2 = 1 ∧
    (∀ bytes run, (compute_max_peak 20 20 true 0 false bytes run).meter = none) ∧
    (∀ cfg : Cfg, ∀ evs data count runA runB,
      Option.map WriteRes.view (pcm_write cfg evs data count runA) =
      Option.map WriteRes.view
        (pcm_write {cfg with vumeter := false} evs data count runB)) :=
  unsupported_width_reports_once 20 20 true 0 false [[0]]
    (by decide) (by decide) (by decide) (by decide) (by simp)

/-- C3 (code bug): size-based rotation never happens.  With
`max_file_time = 1` at a byte rate of 8000 bytes/second the line-2268
value is `max_file_size = 8000`, yet capturing 20000 bytes (2.5
seconds) with chunk size 1024 produces a single file of 20000 bytes:
the capture loop never consults `max_file_size`, so the 3 files of at
most 8000 bytes each required by the claim (and by spec property P4)
cannot appear. -/
theorem capture_no_size_rotation :
    capture_max_file_size 1 8000 1 = 8000 ∧
    capture_files 1024 (capture_max_file_size 1 8000 1) 4 64 20000 =
      some [20000] ∧
    ([20000] : List Nat).length ≠ 3 ∧
    ¬((20000 : Nat) ≤ 8000) := by
  refine ⟨rfl, by decide, by decide, by decide⟩

theorem capture_rotation_steps_succ (orig : List Char) (m k : Nat)
    (hk0 : k ≠ 0) (hk1 : k ≠ 1) :
    capture_rotation_steps orig (m + 1) k =
      ⟨mkNumName (splitName orig).1 (splitName orig).2 k ::
          (capture_rotation_steps orig m (k + 1)).opened,
        FsOp.removeFile (mkNumName (splitName orig).1 (splitName orig).2 k) ::
          (capture_rotation_steps orig m (k + 1)).ops,
        (capture_rotation_steps orig m (k + 1)).filecount⟩ := by
  simp [capture_rotation_steps, new_capture_file_counter, hk0, hk1]

theorem capture_rotation_steps_first (orig : List Char) (m : Nat) :
    capture_rotation_steps orig (m + 1) 0 =
      ⟨orig :: (capture_rotation_steps orig m 1).opened,
        FsOp.removeFile orig :: (capture_rotation_steps orig m 1).ops,
        (capture_rotation_steps orig m 1).filecount⟩ := by
  simp [capture_rotation_steps]

theorem capture_rotation_steps_rename (orig : List Char) (m : Nat) :
    capture_rotation_steps orig (m + 1) 1 =
      ⟨mkNumName (splitName orig).1 (splitName orig).2 2 ::
          (capture_rotation_steps orig m 3).opened,
        FsOp.removeFile (mkNumName (splitName orig).1 (splitName orig).2 1) ::
          FsOp.renameFile orig (mkNumName (splitName orig).1 (splitName orig).2 1) ::
          FsOp.removeFile (mkNumName (splitName orig).1 (splitName orig).2 2) ::
          (capture_rotation_steps orig m 3).ops,
        (capture_rotation_steps orig m 3).filecount⟩ := by
  simp [capture_rotation_steps, new_capture_file_counter]

theorem capture_rotation_steps_from (orig stem ext : List Char)
    (hsplit : splitName orig = (stem, ext)) :
    ∀ n k, 2 ≤ k →
      (capture_rotation_steps orig n k).opened =
        (List.range n).map (fun i => mkNumName stem ext (k + i)) := by
  intro n
  induction n with
  | zero => intro k _; rfl
  | succ m ih =>
    intro k hk
    rw [capture_rotation_steps_succ orig m k (by omega) (by omega), hsplit]
    rw [List.range_succ_eq_map, List.map_cons, List.map_map]
    refine congrArg₂ _ (by rw [Nat.add_zero]) ?_
    rw [ih (k + 1) (by omega)]
    apply List.map_congr_left
    intro i _
    simp only [Function.comp]
    congr 1
    omega

/-- C4: counter-based rotation of `rec.wav` opens `rec.wav` first;
the very first rotation removes any pre-existing `rec-01.wav`, renames
the open `rec.wav` to `rec-01.wav` (so the original name is gone) and
opens `rec-02.wav`; every later rotation opens `rec-NN.wav` with NN
strictly increasing; and the generated name for index `m` is
`rec-<m zero-padded to at least 2 digits>.wav`. -/
theorem counter_rotation_naming (n : Nat) :
    (capture_rotation_steps ("rec.wav".toList) (n + 2) 0).opened =
      "rec.wav".toList ::
        (List.range (n + 1)).map
          (fun i => mkNumName ("rec".toList) ("wav".toList) (i + 2)) ∧
    (∀ m, mkNumName ("rec".toList) ("wav".toList) m =
      "rec-".toList ++ fmt02 m ++ ".wav".toList) ∧
    (∃ restOps,
      (capture_rotation_steps ("rec.wav".toList) (n + 2) 0).ops =
        FsOp.removeFile ("rec.wav".toList) ::
          FsOp.removeFile ("rec-01.wav".toList) ::
          FsOp.renameFile ("rec.wav".toList) ("rec-01.wav".toList) ::
          FsOp.removeFile ("rec-02.wav".toList) :: restOps) := by
  have hsplit : splitName ("rec.wav".toList) = ("rec".toList, "wav".toList) := by
    decide
  have hname : ∀ m, mkNumName ("rec".toList) ("wav".toList) m =
      "rec-".toList ++ fmt02 m ++ ".wav".toList := by
    intro m
    show mkNumName ['r', 'e', 'c'] ['w', 'a', 'v'] m =
      ['r', 'e', 'c', '-'] ++ fmt02 m ++ ['.', 'w', 'a', 'v']
    simp [mkNumName]
  refine ⟨?_, hname, ?_⟩
  · rw [capture_rotation_steps_first, capture_rotation_steps_rename, hsplit]
    rw [capture_rotation_steps_from ("rec.wav".toList) ("rec".toList)
      ("wav".toList) hsplit n 3 (by omega)]
    rw [List.range_succ_eq_map, List.map_cons, List.map_map]
    refine congrArg₂ _ rfl (congrArg₂ _ rfl ?_)
    apply List.map_congr_left
    intro i _
    simp only [Function.comp]
    congr 1
    omega
  · rw [capture_rotation_steps_first, capture_rotation_steps_rename, hsplit]
    refine ⟨(capture_rotation_steps ("rec.wav".toList) n 3).ops, ?_⟩
    rw [show mkNumName ("rec".toList) ("wav".toList) 1 = "rec-01.wav".toList
      by decide]
    rw [show mkNumName ("rec".toList) ("wav".toList) 2 = "rec-02.wav".toList
      by decide]

/-- C5 counterexample: a playback run aborted by SIGINT/SIGTERM exits
with status `EXIT_SUCCESS` (0), not a failure code: `capture` calls
`prg_exit(EXIT_FAILURE)` when `in_aborting` is set (fplay.c
2351-2352), but the playback loops merely unwind and `main` falls
through to `prg_exit(EXIT_SUCCESS)` (line 857). -/
theorem playback_abort_exit_success :
    (run_exit StreamDir.playback true false true).code = EXIT_SUCCESS ∧
    EXIT_SUCCESS ≠ EXIT_FAILURE ∧
    run_exit StreamDir.playback true false true =
      ⟨EXIT_SUCCESS, true, true⟩ :=
  ⟨rfl, by decide, rfl⟩

/-- C5 (amended): an abort observed during capture exits with the
failure status after releasing the device and removing the pid file;
a SIGABRT abort exits with the failure status from the handler
(without closing the device); but an abort during playback delivered
by SIGINT/SIGTERM falls through the normal end of `main` and exits
with the success status 0 (device closed, pid file removed). -/
theorem abort_exit_status (pidfileWritten : Bool) :
    run_exit StreamDir.capture true false pidfileWritten =
      ⟨EXIT_FAILURE, true, pidfileWritten⟩ ∧
    run_exit StreamDir.capture true true pidfileWritten =
      ⟨EXIT_FAILURE, false, pidfileWritten⟩ ∧
    run_exit StreamDir.playback true true pidfileWritten =
      ⟨EXIT_FAILURE, false, pidfileWritten⟩ ∧
    run_exit StreamDir.playback true false pidfileWritten =
      ⟨EXIT_SUCCESS, true, pidfileWritten⟩ := by
  cases pidfileWritten <;> exact ⟨rfl, rfl, rfl, rfl⟩

/-- C8 counterexample: at file index 100 the `%v` escape expands to
three digits (`sprintf("%02d", ...)` pads to a minimum of two digits,
it does not truncate), so "exactly two zero-padded decimal digits"
fails for the reachable index 100. -/
theorem strftime_v_escape_counterexample :
    mystrftime_format ("%v".toList) 100 = ['1', '0', '0'] ∧
    (mystrftime_format ("%v".toList) 100).length ≠ 2 :=
  ⟨by decide, by decide⟩

theorem mystrftime_format_lit (c : Char) (hc : c ≠ '%') (l : List Char)
    (n : Nat) : mystrftime_format (c :: l) n = c :: mystrftime_format l n := by
  rw [mystrftime_format.eq_def]
  simp [hc]

theorem mystrftime_format_pct (c : Char) (hc : c ≠ 'v') (l : List Char)
    (n : Nat) :
    mystrftime_format ('%' :: c :: l) n = '%' :: c :: mystrftime_format l n := by
  rw [mystrftime_format.eq_def]
  simp [hc]

theorem mystrftime_format_v (l : List Char) (n : Nat) :
    mystrftime_format ('%' :: 'v' :: l) n = fmt02 n ++ mystrftime_format l n := by
  rw [mystrftime_format.eq_def]
  simp

theorem capture_rotation_steps_strf_spec (orig : List Char) :
    ∀ n k,
      (capture_rotation_steps_strf orig n k).opened =
        (List.range n).map (fun i => mystrftime_format orig (k + i + 1)) ∧
      (∀ op ∈ (capture_rotation_steps_strf orig n k).ops,
        ∀ src dst, op ≠ FsOp.renameFile src dst) := by
  intro n
  induction n with
  | zero =>
    intro k
    exact ⟨rfl, by simp [capture_rotation_steps_strf]⟩
  | succ m ih =>
    intro k
    have hstep : capture_rotation_steps_strf orig (m + 1) k =
        ⟨mystrftime_format orig (k + 1) ::
            (capture_rotation_steps_strf orig m (k + 1)).opened,
          FsOp.removeFile (mystrftime_format orig (k + 1)) ::
            (capture_rotation_steps_strf orig m (k + 1)).ops,
          (capture_rotation_steps_strf orig m (k + 1)).filecount⟩ := by
      simp [capture_rotation_steps_strf, new_capture_file_strftime]
    rw [hstep]
    constructor
    · rw [(ih (k + 1)).1]
      rw [List.range_succ_eq_map, List.map_cons, List.map_map]
      refine congrArg₂ _ (by rw [Nat.add_zero]) ?_
      apply List.map_congr_left
      intro i _
      simp only [Function.comp]
      congr 1
      omega
    · intro op hop src dst
      rcases List.mem_cons.mp hop with h | h
      · subst h
        intro hcon
        cases hcon
      · exact (ih (k + 1)).2 op h src dst

/-- C8 (amended): in strftime naming mode every rotation — including
the first — formats the base name with the one-based file index
(`filecount + 1`, so the first file uses index 1) and performs no
rename; in the constructed format string `%v` expands to the file
index zero-padded to a minimum of two digits (exactly two only for
indices 1..99), and every other `%`-code and every literal character
is passed through verbatim to `strftime`, which is evaluated at the
moment of rotation. -/
theorem strftime_mode_formatting (n : Nat) (ts : List FTok)
    (hts : ∀ t ∈ ts, tokOk t = true) :
    mystrftime_format (renderToks ts) n = expandToks n ts ∧
    (∀ m, m < 100 → 1 ≤ m → (fmt02 m).length = 2) ∧
    (∀ orig k,
      (capture_rotation_steps_strf orig k 0).opened =
        (List.range k).map (fun i => mystrftime_format orig (i + 1)) ∧
      ∀ op ∈ (capture_rotation_steps_strf orig k 0).ops,
        ∀ src dst, op ≠ FsOp.renameFile src dst) := by
  refine ⟨?_, by decide, ?_⟩
  · revert hts
    induction ts with
    | nil =>
      intro _
      simp [renderToks, expandToks, mystrftime_format]
    | cons t rest ih =>
      intro hts
      have ht : tokOk t = true := hts t (List.mem_cons_self t rest)
      have ihr := ih (fun x hx => hts x (List.mem_cons_of_mem t hx))
      simp only [renderToks, expandToks] at ihr
      cases t with
      | lit c =>
        have hc : c ≠ '%' := by simpa [tokOk] using ht
        simp only [renderToks, expandToks, List.map_cons, List.flatten_cons,
          renderTok, expandTok, List.singleton_append]
        rw [mystrftime_format_lit c hc]
        exact congrArg (List.cons c) ihr
      | pct c =>
        have hc : c ≠ 'v' := by simpa [tokOk] using ht
        simp only [renderToks, expandToks, List.map_cons, List.flatten_cons,
          renderTok, expandTok, List.cons_append, List.singleton_append]
        rw [mystrftime_format_pct c hc]
        exact congrArg (List.cons '%') (congrArg (List.cons c) ihr)
      | fileNo =>
        simp only [renderToks, expandToks, List.map_cons, List.flatten_cons,
          renderTok, expandTok, List.cons_append, List.singleton_append]
        rw [mystrftime_format_v]
        exact congrArg (fmt02 n ++ ·) ihr
  · intro orig k
    obtain ⟨h1, h2⟩ := capture_rotation_steps_strf_spec orig k 0
    refine ⟨?_, h2⟩
    rw [h1]
    apply List.map_congr_left
    intro i _
    congr 1
    omega

/-- Witness for C8's amended theorem: the template `%Hx%v` at file
index 7. -/
theorem strftime_mode_formatting_witness :
    mystrftime_format (renderToks [FTok.pct 'H', FTok.lit 'x', FTok.fileNo]) 7 =
      expandToks 7 [FTok.pct 'H', FTok.lit 'x', FTok.fileNo] ∧
    (∀ m, m < 100 → 1 ≤ m → (fmt02 m).length = 2) ∧
    (∀ orig k,
      (capture_rotation_steps_strf orig k 0).opened =
        (List.range k).map (fun i => mystrftime_format orig (i + 1)) ∧
      ∀ op ∈ (capture_rotation_steps_strf orig k 0).ops,
        ∀ src dst, op ≠ FsOp.renameFile src dst) :=
  strftime_mode_formatting 7 [FTok.pct 'H', FTok.lit 'x', FTok.fileNo]
    (by decide)

theorem int_abs_gt_iff (R a : Int) : |a| > R ↔ a > R ∨ a < -R := by
  rw [gt_iff_lt, lt_abs]
  constructor <;> (intro h; rcases h with h | h) <;> omega

/-- C9 counterexample: in capture mode, with all four position values
inside the envelope (coefficient 8, buffer 100, so envelope 400) but
`avail = 3 > delay = 2`, the reading is flagged suspicious, yet the
accumulated statistics are NOT reset: the state keeps
`availsum = 7`, `samples = 3` etc. and only the counter is bumped, so
"any suspicious reading resets the accumulated min/max/average
statistics" is false. -/
theorem test_position_no_reset_counterexample :
    (do_test_position true false 8 100 3 2 0 0 10
      ⟨7, 5, 3, 2, 2, 9, 9, 0, 0, 4, 10⟩).suspicious = true ∧
    (do_test_position true false 8 100 3 2 0 0 10
      ⟨7, 5, 3, 2, 2, 9, 9, 0, 0, 4, 10⟩).st =
      ⟨7, 5, 3, 2, 2, 9, 9, 0, 0, 5, 10⟩ ∧
    (7 : Int) ≠ 0 ∧ (3 : Nat) ≠ 0 :=
  ⟨by decide, by decide, by decide, by decide⟩

/-- C9 (amended): a polled position is flagged suspicious exactly when
one of the four queried values has absolute value exceeding
`test_coef * buffer_size / 2`, or — in capture mode only — when
`avail > delay` for either pair; an envelope violation resets the
accumulated min/max/average statistics (and records the offending
pair), while the capture-mode `avail > delay` readings are only logged
and counted, leaving the accumulators unchanged. -/
theorem test_position_envelope_and_reset
    (capture verbose : Bool) (test_coef buffer_frames : Nat)
    (avail delay savail sdelay now : Int) (st : BufStats) (R : Int)
    (hR : R = ((test_coef * buffer_frames) / 2 : Nat)) :
    ((do_test_position capture verbose test_coef buffer_frames
        avail delay savail sdelay now st).suspicious = true ↔
      ((|avail| > R ∨ |delay| > R) ∨ (|savail| > R ∨ |sdelay| > R) ∨
        (capture = true ∧ avail > delay) ∨
        (capture = true ∧ savail > sdelay))) ∧
    ((|avail| > R ∨ |delay| > R) ∨ (|savail| > R ∨ |sdelay| > R) →
      ((do_test_position capture verbose test_coef buffer_frames
          avail delay savail sdelay now st).st.availsum = 0 ∧
       (do_test_position capture verbose test_coef buffer_frames
          avail delay savail sdelay now st).st.delaysum = 0 ∧
       (do_test_position capture verbose test_coef buffer_frames
          avail delay savail sdelay now st).st.samples = 0 ∧
       (do_test_position capture verbose test_coef buffer_frames
          avail delay savail sdelay now st).st.maxavail = 0 ∧
       (do_test_position capture verbose test_coef buffer_frames
          avail delay savail sdelay now st).st.maxdelay = 0 ∧
       (do_test_position capture verbose test_coef buffer_frames
          avail delay savail sdelay now st).st.minavail =
         ((buffer_frames * 16 : Nat) : Int) ∧
       (do_test_position capture verbose test_coef buffer_frames
          avail delay savail sdelay now st).st.mindelay =
         ((buffer_frames * 16 : Nat) : Int))) ∧
    (¬((|avail| > R ∨ |delay| > R) ∨ (|savail| > R ∨ |sdelay| > R)) →
      ((capture = true ∧ avail > delay) ∨ (capture = true ∧ savail > sdelay)) →
      (do_test_position capture verbose test_coef buffer_frames
          avail delay savail sdelay now st).st =
        { st with counter := st.counter + 1 }) := by
  subst hR
  have ha := int_abs_gt_iff (((test_coef * buffer_frames) / 2 : Nat) : Int) avail
  have hd := int_abs_gt_iff (((test_coef * buffer_frames) / 2 : Nat) : Int) delay
  have hsa := int_abs_gt_iff (((test_coef * buffer_frames) / 2 : Nat) : Int) savail
  have hsd := int_abs_gt_iff (((test_coef * buffer_frames) / 2 : Nat) : Int) sdelay
  by_cases h1 : avail > (((test_coef * buffer_frames) / 2 : Nat) : Int) ∨
      avail < -(((test_coef * buffer_frames) / 2 : Nat) : Int) ∨
      delay > (((test_coef * buffer_frames) / 2 : Nat) : Int) ∨
      delay < -(((test_coef * buffer_frames) / 2 : Nat) : Int)
  · rw [do_test_position, if_pos h1]
    refine ⟨?_, ?_, ?_⟩
    · simp only [true_iff]
      exact Or.inl (by rw [ha, hd]; omega)
    · intro _
      simp [resetAccums]
    · intro hno _
      exact absurd (Or.inl (by rw [ha, hd]; omega)) hno
  · rw [do_test_position, if_neg h1]
    by_cases h2 : savail > (((test_coef * buffer_frames) / 2 : Nat) : Int) ∨
        savail < -(((test_coef * buffer_frames) / 2 : Nat) : Int) ∨
        sdelay > (((test_coef * buffer_frames) / 2 : Nat) : Int) ∨
        sdelay < -(((test_coef * buffer_frames) / 2 : Nat) : Int)
    · rw [if_pos h2]
      refine ⟨?_, ?_, ?_⟩
      · simp only [true_iff]
        exact Or.inr (Or.inl (by rw [hsa, hsd]; omega))
      · intro _
        simp [resetAccums]
      · intro hno _
        exact absurd (Or.inr (by rw [hsa, hsd]; omega)) hno
    · rw [if_neg h2]
      have henv : ¬((|avail| > (((test_coef * buffer_frames) / 2 : Nat) : Int) ∨
          |delay| > (((test_coef * buffer_frames) / 2 : Nat) : Int)) ∨
          (|savail| > (((test_coef * buffer_frames) / 2 : Nat) : Int) ∨
          |sdelay| > (((test_coef * buffer_frames) / 2 : Nat) : Int))) := by
        rw [ha, hd, hsa, hsd]
        omega
      by_cases h3 : capture = true ∧ avail > delay
      · rw [if_pos h3]
        refine ⟨?_, fun henv' => absurd henv' henv, fun _ _ => rfl⟩
        simp only [true_iff]
        exact Or.inr (Or.inr (Or.inl h3))
      · rw [if_neg h3]
        by_cases h4 : capture = true ∧ savail > sdelay
        · rw [if_pos h4]
          refine ⟨?_, fun henv' => absurd henv' henv, fun _ _ => rfl⟩
          simp only [true_iff]
          exact Or.inr (Or.inr (Or.inr h4))
        · rw [if_neg h4]
          refine ⟨iff_of_false ?_ ?_, fun henv' => absurd henv' henv,
            fun _ hcap => ?_⟩
          · cases verbose <;> simp
          · intro hcon
            rcases hcon with hor | hor | hor | hor
            · exact henv (Or.inl hor)
            · exact henv (Or.inr hor)
            · exact h3 hor
            · exact h4 hor
          · rcases hcap with hc | hc
            · exact absurd hc h3
            · exact absurd hc h4

/-- Witness for C9's amended theorem: capture mode, coefficient 8,
buffer 100 frames (envelope 400), `avail = 500` out of range. -/
theorem test_position_envelope_and_reset_witness :
    ((do_test_position true false 8 100 500 0 0 0 10
        ⟨7, 5, 3, 2, 2, 9, 9, 0, 0, 4, 10⟩).suspicious = true ↔
      ((|(500 : Int)| > (400 : Int) ∨ |(0 : Int)| > (400 : Int)) ∨
        (|(0 : Int)| > (400 : Int) ∨ |(0 : Int)| > (400 : Int)) ∨
        (true = true ∧ (500 : Int) > (0 : Int)) ∨
        (true = true ∧ (0 : Int) > (0 : Int)))) ∧
    ((|(500 : Int)| > (400 : Int) ∨ |(0 : Int)| > (400 : Int)) ∨
      (|(0 : Int)| > (400 : Int) ∨ |(0 : Int)| > (400 : Int)) →
      ((do_test_position true false 8 100 500 0 0 0 10
          ⟨7, 5, 3, 2, 2, 9, 9, 0, 0, 4, 10⟩).st.availsum = 0 ∧
       (do_test_position true false 8 100 500 0 0 0 10
          ⟨7, 5, 3, 2, 2, 9, 9, 0, 0, 4, 10⟩).st.delaysum = 0 ∧
       (do_test_position true false 8 100 500 0 0 0 10
          ⟨7, 5, 3, 2, 2, 9, 9, 0, 0, 4, 10⟩).st.samples = 0 ∧
       (do_test_position true false 8 100 500 0 0 0 10
          ⟨7, 5, 3, 2, 2, 9, 9, 0, 0, 4, 10⟩).st.maxavail = 0 ∧
       (do_test_position true false 8 100 500 0 0 0 10
          ⟨7, 5, 3, 2, 2, 9, 9, 0, 0, 4, 10⟩).st.maxdelay = 0 ∧
       (do_test_position true false 8 100 500 0 0 0 10
          ⟨7, 5, 3, 2, 2, 9, 9, 0, 0, 4, 10⟩).st.minavail =
         ((100 * 16 : Nat) : Int) ∧
       (do_test_position true false 8 100 500 0 0 0 10
          ⟨7, 5, 3, 2, 2, 9, 9, 0, 0, 4, 10⟩).st.mindelay =
         ((100 * 16 : Nat) : Int))) ∧
    (¬((|(500 : Int)| > (400 : Int) ∨ |(0 : Int)| > (400 : Int)) ∨
        (|(0 : Int)| > (400 : Int) ∨ |(0 : Int)| > (400 : Int))) →
      ((true = true ∧ (500 : Int) > (0 : Int)) ∨
        (true = true ∧ (0 : Int) > (0 : Int))) →
      (do_test_position true false 8 100 500 0 0 0 10
          ⟨7, 5, 3, 2, 2, 9, 9, 0, 0, 4, 10⟩).st =
        { (⟨7, 5, 3, 2, 2, 9, 9, 0, 0, 4, 10⟩ : BufStats) with
            counter :=
              (⟨7, 5, 3, 2, 2, 9, 9, 0, 0, 4, 10⟩ : BufStats).counter + 1 }) :=
  test_position_envelope_and_reset true false 8 100 500 0 0 0 10
    ⟨7, 5, 3, 2, 2, 9, 9, 0, 0, 4, 10⟩ 400 (by decide)

end Fplay
